import Mathlib

/-!
Verification development for the `ip-scanner` tool (`src/main.py`).

The Python source is shallowly embedded: randomness is modelled as an
explicit tape of natural numbers consumed left to right (each call to a
`random` primitive reads one tape cell), IPv4 addresses are naturals
below `2^32`, CIDR networks are a base address plus a prefix length, and
fallible Python code (exceptions) is modelled with `Except`.
-/

namespace IpScanner

/-- A deterministic source of randomness: an infinite tape of naturals and
a read position.  Each `random` primitive reads one cell and advances. -/
structure RandState where
  tape : Nat → Nat
  pos : Nat

/-- Read one tape cell, reduced mod `n`: models drawing a uniform integer
in `[0, n)` (the discrete semantics of `random.random() * total`,
`random._randbelow(n)`, …). -/
def randBelow (s : RandState) (n : Nat) : Nat × RandState :=
  (s.tape s.pos % n, ⟨s.tape, s.pos + 1⟩)

/-- Models Python `random.randint(a, b)` (both endpoints inclusive). -/
def randint (s : RandState) (a b : Nat) : Nat × RandState :=
  (a + s.tape s.pos % (b + 1 - a), ⟨s.tape, s.pos + 1⟩)

/-- A CIDR block, `ipaddress.IPv4Network`: network (base) address and
prefix length.  `num_addresses` is derived from the prefix. -/
structure Net where
  base : Nat
  prefixLen : Nat
deriving DecidableEq, Repr

/-- Python `net.num_addresses` for an IPv4 network. -/
def Net.numAddresses (net : Net) : Nat := 2 ^ (32 - net.prefixLen)

/-- Python exceptions that the embedded code can raise. -/
inductive PyErr
  | indexError
  | valueError
  | addressValueError
deriving DecidableEq, Repr

/-- `sum(weights)` for `weights = [net.num_addresses for net in networks]`. -/
def totalWeight (nets : List Net) : Nat := (nets.map Net.numAddresses).sum

/-- `bisect.bisect(cum_weights, r)` on the cumulative weights: select the
first network whose cumulative weight exceeds `r`. -/
def pickWeighted : List Net → Nat → Option Net
  | [], _ => none
  | n :: rest, r => if r < n.numAddresses then some n else pickWeighted rest (r - n.numAddresses)

/-- The selection loop of `random.choices(networks, weights=weights, k=k)`:
one uniform draw in `[0, total)` per requested element. -/
def choicesAux (nets : List Net) (total : Nat) : Nat → RandState → List Net × RandState
  | 0, s => ([], s)
  | k + 1, s =>
      let p := randBelow s total
      let net := (pickWeighted nets p.1).getD ⟨0, 32⟩
      let rest := choicesAux nets total k p.2
      (net :: rest.1, rest.2)

/-- Python `random.choices(population, weights=weights, k=k)`.
With an empty population the cumulative-weight list is empty and
`cum_weights[-1]` raises `IndexError`; a zero weight total raises
`ValueError`; otherwise `k` weighted draws are made (an empty list when
`k = 0`). -/
def choicesWeighted (nets : List Net) (k : Nat) (s : RandState) :
    Except PyErr (List Net × RandState) :=
  if nets.isEmpty then .error .indexError
  else if totalWeight nets = 0 then .error .valueError
  else .ok (choicesAux nets (totalWeight nets) k s)

/-- The body of the `for net in chosen_nets` loop of `generate_random_ips`:
for each chosen network, an offset (`randint(1, num_addresses - 2)` when
the block has more than 2 addresses, else `0`) added to the network
address. -/
def genOffsets : List Net → RandState → List Nat × RandState
  | [], s => ([], s)
  | net :: rest, s =>
      let step : Nat × RandState :=
        if 2 < net.numAddresses then
          let p := randint s 1 (net.numAddresses - 2)
          (net.base + p.1, p.2)
        else
          (net.base + 0, s)
      let tail := genOffsets rest step.2
      (step.1 :: tail.1, tail.2)

/-- `generate_random_ips(networks, count)` from `src/main.py`.
`count` is an `Int` because the Python parameter is an arbitrary integer;
`random.choices` with `k ≤ 0` produces an empty list, which
`Int.toNat` mirrors. -/
def generate_random_ips (networks : List Net) (count : Int) (s : RandState) :
    Except PyErr (List Nat × RandState) :=
  match choicesWeighted networks count.toNat s with
  | .error e => .error e
  | .ok (chosen, s1) => .ok (genOffsets chosen s1)

/-! ### The flat-list sampler (`generate_random_ips_from_list`) -/

/-- `addr_str.split(".")`: split a character list at every dot. -/
def splitOnDot : List Char → List (List Char)
  | [] => [[]]
  | c :: rest =>
      let r := splitOnDot rest
      if c = '.' then [] :: r
      else
        match r with
        | [] => [[c]]
        | g :: gs => (c :: g) :: gs

/-- One octet of a dotted-quad literal, as accepted by
`ipaddress.IPv4Address._parse_octet`: 1–3 ASCII decimal digits, no
leading zero (unless the octet is exactly "0"), value at most 255. -/
def parseOctet (cs : List Char) : Option Nat :=
  if cs.length = 0 then none
  else if ¬ cs.all Char.isDigit then none
  else if 3 < cs.length then none
  else if 1 < cs.length ∧ cs.headD '0' = '0' then none
  else
    let v := cs.foldl (fun acc c => acc * 10 + (c.toNat - 48)) 0
    if v ≤ 255 then some v else none

/-- `ipaddress.IPv4Address(s)` for a string: a dotted quad of four valid
octets, packed big-endian into a natural below `2^32`. -/
def parseIPv4 (s : String) : Option Nat :=
  match (splitOnDot s.toList).map parseOctet with
  | [some a, some b, some c, some d] => some (((a * 256 + b) * 256 + c) * 256 + d)
  | _ => none

/-- The list comprehension `[ipaddress.IPv4Address(ip) for ip in l]`:
left to right, raising `AddressValueError` at the first invalid literal. -/
def parseAll : List String → Except PyErr (List Nat)
  | [] => .ok []
  | ip :: rest =>
      match parseIPv4 ip with
      | none => .error .addressValueError
      | some v =>
          match parseAll rest with
          | .error e => .error e
          | .ok vs => .ok (v :: vs)

/-- One step of CPython's `random.sample` selection loop over a shrinking
pool: after position `j` is picked, the last pool element is moved into
slot `j` and the pool shrinks by one (`pool[j] = pool[n-i-1]`). -/
def swapRemove : List String → Nat → List String
  | [], _ => []
  | a :: t, j => ((a :: t).set j ((a :: t).getLast (by simp))).dropLast

/-- The selection loop of `random.sample(population, k)`: `k` rounds, each
drawing a uniform position in the remaining pool and swap-removing it. -/
def sampleAux : Nat → List String → RandState → List String × RandState
  | 0, _, s => ([], s)
  | _ + 1, [], s => ([], s)
  | k + 1, a :: t, s =>
      let pool := a :: t
      let p := randBelow s pool.length
      let x := pool.getD p.1 a
      let rest := sampleAux k (swapRemove pool p.1) p.2
      (x :: rest.1, rest.2)

/-- Python `random.sample(population, k)`: raises `ValueError` unless
`0 ≤ k ≤ n`, otherwise returns `k` elements drawn at distinct positions. -/
def pySample (population : List String) (k : Int) (s : RandState) :
    Except PyErr (List String × RandState) :=
  if 0 ≤ k ∧ k ≤ (population.length : Int) then .ok (sampleAux k.toNat population s)
  else .error .valueError

/-- `generate_random_ips_from_list(ip_list, count)` from `src/main.py`. -/
def generate_random_ips_from_list (ip_list : List String) (count : Int) (s : RandState) :
    Except PyErr (List Nat × RandState) :=
  if ip_list.length = 0 then .ok ([], s)
  else if (ip_list.length : Int) ≤ count then
    match parseAll ip_list with
    | .error e => .error e
    | .ok vs => .ok (vs, s)
  else
    match pySample ip_list count s with
    | .error e => .error e
    | .ok (chosen, s1) =>
        match parseAll chosen with
        | .error e => .error e
        | .ok vs => .ok (vs, s1)

/-- Two random states generate the same stream of raw values from their
current positions. -/
def streamEquiv (s₁ s₂ : RandState) : Prop :=
  ∀ k, s₁.tape (s₁.pos + k) = s₂.tape (s₂.pos + k)

/-- The offset characterisation asserted by claim C10: the address is
`network_address + offset` for an integer offset with
`0 ≤ offset ≤ num_addresses - 2` (integer, not truncated, subtraction). -/
def offsetInClaimedRange (net : Net) (a : Nat) : Prop :=
  ∃ off : ℤ, 0 ≤ off ∧ off ≤ (net.numAddresses : ℤ) - 2 ∧ (a : ℤ) = (net.base : ℤ) + off


/-! ### The probe (`test_ip`) -/

/-- `str(ipaddress.IPv4Address(n))`: the dotted-quad rendering. -/
def ipToString (n : Nat) : String :=
  toString (n / 2 ^ 24 % 256) ++ "." ++ toString (n / 2 ^ 16 % 256) ++ "." ++
    toString (n / 2 ^ 8 % 256) ++ "." ++ toString (n % 256)

/-- How the single `requests.get` of a probe terminates.  `failure` is
any exception other than `requests.exceptions.Timeout` (connection
refused, reset, protocol error, …); an HTTP error status does not raise
from `requests.get` and is therefore a `completed` termination. -/
inductive ReqResult
  | timeout
  | failure
  | completed
deriving DecidableEq, Repr

/-- The network environment seen by one probe: how the request terminates
and the monotonic-clock reading at the moment of termination. -/
structure ProbeEnv where
  result : ReqResult
  endTime : ℚ

/-- `test_ip(ip, timeout)` from `src/main.py`.  `start` is the
`time.monotonic()` reading when the request is issued. -/
def test_ip (ip : Nat) (timeout : ℚ) (start : ℚ) (env : ProbeEnv) :
    Option (String × ℚ) :=
  match env.result with
  | .timeout => none
  | .failure => some (ipToString ip, env.endTime - start)
  | .completed => some (ipToString ip, env.endTime - start)

/-! ### The scheduler (`check_ips`) -/

/-- `check_ips(ips, workers, timeout)` from `src/main.py`.

Futures are indexed by submission order; `order` is the completion order
produced by `as_completed` (a permutation of the future indices once all
probes have completed).  `starts i` and `envs i` are the issue time and
network environment of probe `i`.  The returned pair is the `responsive`
list and the final progress-bar count (one `pbar.update()` per completed
future, regardless of outcome). -/
def check_ips (ips : List Nat) (workers : Nat) (timeout : ℚ)
    (starts : Nat → ℚ) (envs : Nat → ProbeEnv) (order : List Nat) :
    List (String × ℚ) × Nat :=
  order.foldl
    (fun st i =>
      match test_ip (ips.getD i 0) timeout (starts i) (envs i) with
      | some r => (st.1 ++ [r], st.2 + 1)
      | none => (st.1, st.2 + 1))
    ([], 0)

/-! ### The output step of `main` -/

/-- The decimal digit character for `n % 10`. -/
def digitChar (n : Nat) : Char := Char.ofNat (48 + n % 10)

/-- Two-digit zero-padded decimal rendering, as in `%m`, `%d`, `%H`,
`%M`, `%S` of `strftime`. -/
def pad2 (n : Nat) : String := String.mk [digitChar (n / 10), digitChar n]

/-- Four-digit zero-padded decimal rendering (`%Y`). -/
def pad4 (n : Nat) : String :=
  String.mk [digitChar (n / 1000), digitChar (n / 100), digitChar (n / 10), digitChar n]

/-- A wall-clock timestamp as used by `datetime.now()`. -/
structure DateTime where
  year : Nat
  month : Nat
  day : Nat
  hour : Nat
  minute : Nat
  second : Nat

/-- `datetime.now().strftime("%Y%m%d_%H%M%S")`. -/
def nowString (d : DateTime) : String :=
  pad4 d.year ++ pad2 d.month ++ pad2 d.day ++ "_" ++
    pad2 d.hour ++ pad2 d.minute ++ pad2 d.second

/-- Python `f"{q:.2f}"` on an elapsed time, modelled over `ℚ`: round to
centi-units and print with exactly two fractional digits. -/
def formatTwoDec (q : ℚ) : String :=
  let n : ℤ := round (q * 100)
  toString (n / 100) ++ "." ++ String.mk [digitChar ((n % 100).toNat / 10), digitChar (n % 100).toNat]

/-- The report step of `main` (lines 170–186): compute the timestamped
filename, and write the CSV (header plus one row per responsive address,
elapsed time formatted to two decimals) only when `responsive` is
non-empty; `none` models the no-file console-message-only branch. -/
def writeReport (choice : String) (d : DateTime) (responsive : List (String × ℚ)) :
    Option (String × List (List String)) :=
  let filename := "responsive_ips_" ++ choice ++ "_" ++ nowString d ++ ".csv"
  if responsive.isEmpty then none
  else some (filename,
    ["ip", "response_time_s"] :: responsive.map fun p => [p.1, formatTwoDec p.2])

/-! ### The Bunny provider fetch (`fetch_bunny_ips`) -/

/-- A JSON value, as produced by `response.json()`. -/
inductive JsonValue
  | jArr (elems : List JsonValue)
  | jObj (fields : List (String × JsonValue))
  | jStr (s : String)
  | jNum (n : Int)
  | jBool (b : Bool)
  | jNull

/-- `True` exactly when the value is a JSON array (a Python `list`). -/
def JsonValue.isArr : JsonValue → Bool
  | .jArr _ => true
  | _ => false

/-- Python truthiness of a decoded JSON value (`if not bunny_ips:`). -/
def JsonValue.truthy : JsonValue → Bool
  | .jArr elems => !elems.isEmpty
  | .jObj fields => !fields.isEmpty
  | .jStr s => !(s == "")
  | .jNum n => !(n == 0)
  | .jBool b => b
  | .jNull => false

/-- How the `requests.get` of the provider fetch terminates: an exception
(network error, timeout, …), or a response with a status code and a body
that either parses as JSON (`some v`) or raises `JSONDecodeError`
(`none`). -/
inductive HttpResult
  | exn
  | resp (status : Nat) (body : Option JsonValue)

/-- Python exception raised inside the `try` block of the fetch. -/
inductive FetchExn
  | requestFailed
  | httpStatusError
  | jsonDecodeError

/-- The `try` body of `fetch_bunny_ips`: `requests.get`, then
`raise_for_status()` (raises for status codes in `[400, 600)`), then
`response.json()`. -/
def fetchBody : HttpResult → Except FetchExn JsonValue
  | .exn => .error .requestFailed
  | .resp status body =>
      if 400 ≤ status ∧ status < 600 then .error .httpStatusError
      else
        match body with
        | none => .error .jsonDecodeError
        | some v => .ok v

/-- `fetch_bunny_ips()` from `src/main.py`: the `try` body with a
catch-all `except Exception` handler returning the empty list. -/
def fetch_bunny_ips (env : HttpResult) : JsonValue :=
  match fetchBody env with
  | .ok v => v
  | .error _ => .jArr []

/-- The caller-side gate in `main` (lines 118–120): the run is aborted
exactly when the fetched value is falsy. -/
def bunnyFetchFatal (env : HttpResult) : Bool :=
  !(fetch_bunny_ips env).truthy

/-! ### Basic lemmas about the CIDR sampler -/

theorem Net.numAddresses_pos (net : Net) : 0 < net.numAddresses :=
  Nat.pos_pow_of_pos _ (by norm_num)

theorem totalWeight_pos {nets : List Net} (h : nets ≠ []) : 0 < totalWeight nets := by
  cases nets with
  | nil => exact absurd rfl h
  | cons n rest =>
      have := Net.numAddresses_pos n
      simp [totalWeight]
      omega

theorem pickWeighted_mem {nets : List Net} {r : Nat} (h : r < totalWeight nets) :
    ∃ net, pickWeighted nets r = some net ∧ net ∈ nets := by
  induction nets generalizing r with
  | nil => simp [totalWeight] at h
  | cons n rest ih =>
      by_cases hr : r < n.numAddresses
      · exact ⟨n, by simp [pickWeighted, hr], by simp⟩
      · have h' : r - n.numAddresses < totalWeight rest := by
          simp [totalWeight] at h ⊢
          omega
        obtain ⟨net, hpick, hmem⟩ := ih h'
        exact ⟨net, by simp [pickWeighted, hr, hpick], by simp [hmem]⟩

theorem choicesAux_length (nets : List Net) (total k : Nat) (s : RandState) :
    (choicesAux nets total k s).1.length = k := by
  induction k generalizing s with
  | zero => simp [choicesAux]
  | succ k ih => simp [choicesAux, ih]

theorem choicesAux_mem (nets : List Net) (total k : Nat) (s : RandState)
    (htot : 0 < total) (hle : total ≤ totalWeight nets) :
    ∀ net ∈ (choicesAux nets total k s).1, net ∈ nets := by
  induction k generalizing s with
  | zero => simp [choicesAux]
  | succ k ih =>
      intro net hnet
      simp only [choicesAux] at hnet
      rcases List.mem_cons.mp hnet with h | h
      · have hr : (randBelow s total).1 < totalWeight nets :=
          lt_of_lt_of_le (Nat.mod_lt _ htot) hle
        obtain ⟨n, hpick, hmem⟩ := pickWeighted_mem hr
        rw [h, hpick]
        exact hmem
      · exact ih _ net h

theorem genOffsets_length (chosen : List Net) (s : RandState) :
    (genOffsets chosen s).1.length = chosen.length := by
  induction chosen generalizing s with
  | nil => simp [genOffsets]
  | cons net rest ih => simp [genOffsets, ih]

/-- Every generated address comes from one of the chosen networks, with
the offset discipline of the source: strictly inside the host range when
the block has more than 2 addresses, the network address itself
otherwise. -/
theorem genOffsets_mem (chosen : List Net) (s : RandState) :
    ∀ a ∈ (genOffsets chosen s).1, ∃ net ∈ chosen,
      (2 < net.numAddresses → net.base < a ∧ a < net.base + net.numAddresses - 1) ∧
      (net.numAddresses ≤ 2 → a = net.base) := by
  induction chosen generalizing s with
  | nil => simp [genOffsets]
  | cons net rest ih =>
      intro a ha
      simp only [genOffsets] at ha
      rcases List.mem_cons.mp ha with h | h
      · refine ⟨net, by simp, ?_, ?_⟩
        · intro h2
          rw [h]
          simp only [if_pos h2, randint]
          have hmod : s.tape s.pos % (net.numAddresses - 2 + 1 - 1) < net.numAddresses - 2 := by
            apply Nat.mod_lt
            omega
          omega
        · intro h2
          rw [h]
          have : ¬ 2 < net.numAddresses := by omega
          simp [this]
      · obtain ⟨n, hmem, hp⟩ := ih _ a h
        exact ⟨n, by simp [hmem], hp⟩

/-! ### Lemmas about `swapRemove` and `sampleAux` -/

theorem swapRemove_length (l : List String) (j : Nat) (h : l ≠ []) :
    (swapRemove l j).length = l.length - 1 := by
  cases l with
  | nil => exact absurd rfl h
  | cons a t => simp [swapRemove]

theorem swapRemove_cons_perm (d : String) :
    ∀ (l : List String) (j : Nat), j < l.length →
      (l.getD j d :: swapRemove l j).Perm l := by
  intro l
  induction l with
  | nil => intro j h; simp at h
  | cons a t ih =>
      intro j hj
      cases t with
      | nil =>
          have hj0 : j = 0 := by simp at hj; omega
          subst hj0
          simp [swapRemove]
      | cons b t' =>
          cases j with
          | zero =>
              simp only [List.getD_cons_zero, swapRemove, List.set_cons_zero]
              have hBT : (b :: t') ≠ [] := by simp
              rw [List.getLast_cons hBT]
              rw [List.dropLast_cons₂]
              refine List.Perm.cons a ?_
              have hperm : ((b :: t').dropLast ++ [(b :: t').getLast hBT]).Perm
                  ((b :: t').getLast hBT :: (b :: t').dropLast) :=
                List.perm_append_singleton _ _
              rw [List.dropLast_append_getLast hBT] at hperm
              exact hperm.symm
          | succ j' =>
              have hj' : j' < (b :: t').length := by simpa using hj
              have hBT : (b :: t') ≠ [] := by simp
              simp only [swapRemove, List.set_cons_succ, List.getD_cons_succ]
              rw [List.getLast_cons hBT]
              have hne : (b :: t').set j' ((b :: t').getLast hBT) ≠ [] := by
                intro hcontra
                have := congrArg List.length hcontra
                simp at this
              rw [List.dropLast_cons_of_ne_nil hne]
              have step : ((b :: t').getD j' d :: a ::
                  ((b :: t').set j' ((b :: t').getLast hBT)).dropLast).Perm
                  (a :: (b :: t').getD j' d ::
                  ((b :: t').set j' ((b :: t').getLast hBT)).dropLast) :=
                List.Perm.swap _ _ _
              refine step.trans (List.Perm.cons a ?_)
              simpa [swapRemove, List.getLast_cons hBT] using ih j' hj'

theorem sampleAux_length :
    ∀ (k : Nat) (pool : List String) (s : RandState), k ≤ pool.length →
      (sampleAux k pool s).1.length = k := by
  intro k
  induction k with
  | zero => intro pool s _; simp [sampleAux]
  | succ k ih =>
      intro pool s hk
      cases pool with
      | nil => simp at hk
      | cons a t =>
          have hk' : k ≤ t.length := by simpa using hk
          have hlen : (swapRemove (a :: t) (randBelow s (t.length + 1)).1).length
              = t.length := by
            rw [swapRemove_length _ _ (by simp)]; simp
          have hrec := ih (swapRemove (a :: t) (randBelow s (t.length + 1)).1)
            (randBelow s (t.length + 1)).2 (by rw [hlen]; exact hk')
          simp only [sampleAux, List.length_cons]
          simp [hrec]

/-- The elements drawn by `sampleAux` can be completed to a permutation of
the pool: they are distinct positions of the pool. -/
theorem sampleAux_perm :
    ∀ (k : Nat) (pool : List String) (s : RandState), k ≤ pool.length →
      ∃ rest, ((sampleAux k pool s).1 ++ rest).Perm pool := by
  intro k
  induction k with
  | zero => intro pool s _; exact ⟨pool, by simp [sampleAux]⟩
  | succ k ih =>
      intro pool s hk
      cases pool with
      | nil => simp at hk
      | cons a t =>
          have hk' : k ≤ t.length := by simpa using hk
          have hlt : (randBelow s (t.length + 1)).1 < (a :: t).length := by
            simp only [randBelow, List.length_cons]
            exact Nat.mod_lt _ (by omega)
          have hlen : (swapRemove (a :: t) (randBelow s (t.length + 1)).1).length
              = t.length := by
            rw [swapRemove_length _ _ (by simp)]; simp
          obtain ⟨rest, hperm⟩ := ih (swapRemove (a :: t) (randBelow s (t.length + 1)).1)
            (randBelow s (t.length + 1)).2 (by rw [hlen]; exact hk')
          refine ⟨rest, ?_⟩
          simp only [sampleAux, List.length_cons]
          have h1 : (((a :: t).getD (randBelow s (t.length + 1)).1 a ::
              (sampleAux k (swapRemove (a :: t) (randBelow s (t.length + 1)).1)
              (randBelow s (t.length + 1)).2).1) ++ rest).Perm
              ((a :: t).getD (randBelow s (t.length + 1)).1 a ::
              swapRemove (a :: t) (randBelow s (t.length + 1)).1) := by
            simpa using List.Perm.cons ((a :: t).getD (randBelow s (t.length + 1)).1 a) hperm
          exact h1.trans (swapRemove_cons_perm a (a :: t) _ hlt)

theorem sampleAux_subset (k : Nat) (pool : List String) (s : RandState)
    (hk : k ≤ pool.length) : ∀ x ∈ (sampleAux k pool s).1, x ∈ pool := by
  obtain ⟨rest, hperm⟩ := sampleAux_perm k pool s hk
  intro x hx
  exact hperm.mem_iff.mp (List.mem_append.mpr (Or.inl hx))

theorem parseAll_ok {l : List String} (h : ∀ ip ∈ l, (parseIPv4 ip).isSome) :
    parseAll l = .ok (l.map fun ip => (parseIPv4 ip).getD 0) := by
  induction l with
  | nil => simp [parseAll]
  | cons ip rest ih =>
      have hip : (parseIPv4 ip).isSome := h ip (by simp)
      obtain ⟨v, hv⟩ := Option.isSome_iff_exists.mp hip
      have hrest := ih (fun x hx => h x (by simp [hx]))
      simp [parseAll, hv, hrest]

/-! ### Determinism: the samplers consume only the explicit random stream -/

theorem streamEquiv_head {s₁ s₂ : RandState} (h : streamEquiv s₁ s₂) :
    s₁.tape s₁.pos = s₂.tape s₂.pos := by
  have := h 0
  simpa using this

theorem randBelow_congr {s₁ s₂ : RandState} (h : streamEquiv s₁ s₂) (n : Nat) :
    (randBelow s₁ n).1 = (randBelow s₂ n).1 ∧
      streamEquiv (randBelow s₁ n).2 (randBelow s₂ n).2 := by
  constructor
  · simp [randBelow, streamEquiv_head h]
  · intro k
    have := h (k + 1)
    simpa [randBelow, Nat.add_assoc, Nat.add_comm 1 k] using this

theorem randint_congr {s₁ s₂ : RandState} (h : streamEquiv s₁ s₂) (a b : Nat) :
    (randint s₁ a b).1 = (randint s₂ a b).1 ∧
      streamEquiv (randint s₁ a b).2 (randint s₂ a b).2 := by
  constructor
  · simp [randint, streamEquiv_head h]
  · intro k
    have := h (k + 1)
    simpa [randint, Nat.add_assoc, Nat.add_comm 1 k] using this

theorem choicesAux_congr (nets : List Net) (total : Nat) :
    ∀ (k : Nat) (s₁ s₂ : RandState), streamEquiv s₁ s₂ →
      (choicesAux nets total k s₁).1 = (choicesAux nets total k s₂).1 ∧
        streamEquiv (choicesAux nets total k s₁).2 (choicesAux nets total k s₂).2 := by
  intro k
  induction k with
  | zero => intro s₁ s₂ h; exact ⟨rfl, h⟩
  | succ k ih =>
      intro s₁ s₂ h
      obtain ⟨hval, hnext⟩ := randBelow_congr h total
      obtain ⟨hrest, hstate⟩ := ih _ _ hnext
      constructor
      · simp only [choicesAux, hval, hrest]
      · simpa only [choicesAux] using hstate

theorem genOffsets_congr :
    ∀ (chosen : List Net) (s₁ s₂ : RandState), streamEquiv s₁ s₂ →
      (genOffsets chosen s₁).1 = (genOffsets chosen s₂).1 ∧
        streamEquiv (genOffsets chosen s₁).2 (genOffsets chosen s₂).2 := by
  intro chosen
  induction chosen with
  | nil => intro s₁ s₂ h; exact ⟨rfl, h⟩
  | cons net rest ih =>
      intro s₁ s₂ h
      by_cases h2 : 2 < net.numAddresses
      · obtain ⟨hval, hnext⟩ := randint_congr h 1 (net.numAddresses - 2)
        obtain ⟨hrest, hstate⟩ := ih _ _ hnext
        constructor
        · simp only [genOffsets, if_pos h2, hval, hrest]
        · simpa only [genOffsets, if_pos h2] using hstate
      · obtain ⟨hrest, hstate⟩ := ih _ _ h
        constructor
        · simp only [genOffsets, if_neg h2, hrest]
        · simpa only [genOffsets, if_neg h2] using hstate

theorem sampleAux_congr :
    ∀ (k : Nat) (pool : List String) (s₁ s₂ : RandState), streamEquiv s₁ s₂ →
      (sampleAux k pool s₁).1 = (sampleAux k pool s₂).1 ∧
        streamEquiv (sampleAux k pool s₁).2 (sampleAux k pool s₂).2 := by
  intro k
  induction k with
  | zero => intro pool s₁ s₂ h; exact ⟨rfl, h⟩
  | succ k ih =>
      intro pool s₁ s₂ h
      cases pool with
      | nil => exact ⟨rfl, h⟩
      | cons a t =>
          obtain ⟨hval, hnext⟩ := randBelow_congr h (a :: t).length
          obtain ⟨hrest, hstate⟩ := ih (swapRemove (a :: t) (randBelow s₁ (a :: t).length).1)
            _ _ hnext
          rw [hval] at hrest hstate
          constructor
          · simp only [sampleAux, hval, hrest]
          · simp only [sampleAux]
            rw [hval]
            exact hstate

theorem check_ips_foldl (ips : List Nat) (timeout : ℚ)
    (starts : Nat → ℚ) (envs : Nat → ProbeEnv) :
    ∀ (order : List Nat) (acc : List (String × ℚ) × Nat),
      order.foldl
        (fun st i =>
          match test_ip (ips.getD i 0) timeout (starts i) (envs i) with
          | some r => (st.1 ++ [r], st.2 + 1)
          | none => (st.1, st.2 + 1)) acc
      = (acc.1 ++ order.filterMap (fun i => test_ip (ips.getD i 0) timeout (starts i) (envs i)),
          acc.2 + order.length) := by
  intro order
  induction order with
  | nil => intro acc; simp
  | cons i rest ih =>
      intro acc
      simp only [List.foldl_cons, List.filterMap_cons, List.length_cons]
      cases h : test_ip (ips.getD i 0) timeout (starts i) (envs i) with
      | none =>
          rw [ih]
          simp [h]
          omega
      | some r =>
          rw [ih]
          simp [h, List.append_assoc]
          omega

/-! ### Claim theorems -/

/-- C1: for every address and positive timeout, `test_ip` returns `None`
(TimedOut, no elapsed time) exactly when the request times out, and
otherwise — any other exception or a completed request, HTTP errors
included — returns the address string paired with the elapsed wall-clock
time from issue to termination. -/
theorem claim_C1_probe_classification (ip : Nat) (timeout start : ℚ) (env : ProbeEnv)
    (ht : 0 < timeout) :
    (env.result = .timeout → test_ip ip timeout start env = none) ∧
    (env.result ≠ .timeout →
      test_ip ip timeout start env = some (ipToString ip, env.endTime - start)) := by
  constructor
  · intro h
    simp [test_ip, h]
  · intro h
    cases henv : env.result with
    | timeout => exact absurd henv h
    | failure => simp [test_ip, henv]
    | completed => simp [test_ip, henv]

/-- C5: once every submitted probe has completed (the completion order is
a permutation of the submitted futures), the progress counter of
`check_ips` has advanced from 0 to the total address count, having been
incremented exactly once per completed probe regardless of outcome: after
the first `k` completions it reads exactly `k`. -/
theorem claim_C5_progress_counter (ips : List Nat) (workers : Nat) (timeout : ℚ)
    (starts : Nat → ℚ) (envs : Nat → ProbeEnv) (order : List Nat)
    (horder : order.Perm (List.range ips.length)) :
    (check_ips ips workers timeout starts envs order).2 = ips.length ∧
    (∀ k, k ≤ order.length →
      (check_ips ips workers timeout starts envs (order.take k)).2 = k) := by
  constructor
  · rw [check_ips, check_ips_foldl]
    have := horder.length_eq
    simp at this ⊢
    omega
  · intro k hk
    rw [check_ips, check_ips_foldl]
    simp
    omega

/-- C6: the result list of `check_ips` is exactly the sequence of
Responded outcomes in completion order — each Responded probe appends its
(address, elapsed) pair and each TimedOut probe appends nothing — so its
length never exceeds the number of submitted addresses. -/
theorem claim_C6_result_set (ips : List Nat) (workers : Nat) (timeout : ℚ)
    (starts : Nat → ℚ) (envs : Nat → ProbeEnv) (order : List Nat) :
    (check_ips ips workers timeout starts envs order).1 =
      order.filterMap (fun i => test_ip (ips.getD i 0) timeout (starts i) (envs i)) ∧
    (order.Perm (List.range ips.length) →
      (check_ips ips workers timeout starts envs order).1.length ≤ ips.length) := by
  constructor
  · rw [check_ips, check_ips_foldl]
    simp
  · intro horder
    rw [check_ips, check_ips_foldl]
    have hlen := horder.length_eq
    rw [List.length_range] at hlen
    simp only [List.nil_append]
    exact le_trans (List.length_filterMap_le _ _) (le_of_eq hlen)

/-- C7: the report step writes a CSV file exactly when at least one
address responded: the file is named
`responsive_ips_<pool>_<YYYYMMDD_HHMMSS>.csv`, starts with the header row
`ip,response_time_s`, has one row per responsive address with the elapsed
time formatted to two decimal places, and when nothing responded no file
is produced. -/
theorem claim_C7_csv_report (choice : String) (d : DateTime)
    (responsive : List (String × ℚ)) :
    (writeReport choice d responsive = none ↔ responsive = []) ∧
    (responsive ≠ [] → writeReport choice d responsive =
      some ("responsive_ips_" ++ choice ++ "_" ++ nowString d ++ ".csv",
        ["ip", "response_time_s"] :: responsive.map fun p => [p.1, formatTwoDec p.2])) ∧
    (∀ q : ℚ, ∃ intStr c₁ c₂, formatTwoDec q = intStr ++ "." ++ String.mk [c₁, c₂]) := by
  refine ⟨?_, ?_, ?_⟩
  · constructor
    · intro h
      by_contra hne
      simp [writeReport, List.isEmpty_iff, hne] at h
    · intro h
      simp [writeReport, h]
  · intro h
    simp [writeReport, List.isEmpty_iff, h]
  · intro q
    exact ⟨toString (round (q * 100) / 100), _, _, rfl⟩

/-- C9 (corrected): `fetch_bunny_ips` never lets an exception escape: any
failure inside the `try` block — network error, HTTP status in
`[400, 600)`, JSON decode error — yields the empty list; a successful
response yields the parsed JSON body verbatim, which is a list whenever
the body is a JSON array; and the caller alone (`main`) decides that a
falsy result is fatal. -/
theorem claim_C9_fetch_total :
    (fetch_bunny_ips .exn = .jArr []) ∧
    (∀ status body, 400 ≤ status → status < 600 →
      fetch_bunny_ips (.resp status body) = .jArr []) ∧
    (∀ status, ¬(400 ≤ status ∧ status < 600) →
      fetch_bunny_ips (.resp status none) = .jArr []) ∧
    (∀ status v, ¬(400 ≤ status ∧ status < 600) →
      fetch_bunny_ips (.resp status (some v)) = v) ∧
    (∀ env, fetch_bunny_ips env =
      (match fetchBody env with | .ok v => v | .error _ => .jArr [])) ∧
    (∀ env, bunnyFetchFatal env = !(fetch_bunny_ips env).truthy) := by
  refine ⟨rfl, ?_, ?_, ?_, fun env => rfl, fun env => rfl⟩
  · intro status body h1 h2
    simp [fetch_bunny_ips, fetchBody, h1, h2]
  · intro status h
    simp [fetch_bunny_ips, fetchBody, h]
  · intro status v h
    simp [fetch_bunny_ips, fetchBody, h]

/-- C9, the claim as frozen, is false: a successful 2xx response whose
body is a JSON object (not an array) is returned verbatim by
`fetch_bunny_ips`, so the result of the fetch is not always a list. -/
theorem claim_C9_counterexample :
    fetch_bunny_ips (.resp 200 (some (.jObj [("ErrorMessage", .jStr "maintenance")]))) =
      .jObj [("ErrorMessage", .jStr "maintenance")] ∧
    (JsonValue.jObj [("ErrorMessage", .jStr "maintenance")]).isArr = false :=
  ⟨rfl, rfl⟩

/-! ### Claim theorems about the samplers -/

theorem generate_random_ips_ok {nets : List Net} {count : Int} {s : RandState}
    {ips : List Nat} {s' : RandState}
    (h : generate_random_ips nets count s = .ok (ips, s')) :
    nets ≠ [] ∧
    ips = (genOffsets (choicesAux nets (totalWeight nets) count.toNat s).1
      (choicesAux nets (totalWeight nets) count.toNat s).2).1 ∧
    ∀ net ∈ (choicesAux nets (totalWeight nets) count.toNat s).1, net ∈ nets := by
  have hne : nets ≠ [] := by
    intro hcontra
    subst hcontra
    simp [generate_random_ips, choicesWeighted] at h
  have htot : totalWeight nets ≠ 0 := (totalWeight_pos hne).ne'
  have hempty : nets.isEmpty = false := by
    simp [List.isEmpty_iff, hne]
  rw [generate_random_ips, choicesWeighted, hempty] at h
  simp only [Bool.false_eq_true, if_false, htot, if_neg htot] at h
  refine ⟨hne, ?_, ?_⟩
  · cases hc : choicesAux nets (totalWeight nets) count.toNat s with
    | mk chosen s1 =>
        rw [hc] at h
        simp at h
        exact congrArg Prod.fst h.symm
  · intro net hnet
    exact choicesAux_mem nets (totalWeight nets) count.toNat s
      (Nat.pos_of_ne_zero htot) le_rfl net hnet

/-- C2: every address that CIDR-mode sampling draws comes from one of the
pool's blocks; when that block has more than 2 addresses the address lies
strictly between the block's network address and its broadcast address
(`base + num_addresses - 1`), equal to neither, and when the block has 2
or fewer addresses the address equals the block's network address. -/
theorem claim_C2_host_range (nets : List Net) (count : Int) (s : RandState)
    (ips : List Nat) (s' : RandState)
    (h : generate_random_ips nets count s = .ok (ips, s')) :
    ∀ a ∈ ips, ∃ net ∈ nets,
      (2 < net.numAddresses → net.base < a ∧ a < net.base + net.numAddresses - 1) ∧
      (net.numAddresses ≤ 2 → a = net.base) := by
  obtain ⟨hne, hips, hmem⟩ := generate_random_ips_ok h
  intro a ha
  rw [hips] at ha
  obtain ⟨net, hnet, hp⟩ := genOffsets_mem _ _ a ha
  exact ⟨net, hmem net hnet, hp⟩

/-- C10, the claim as frozen, is false: sampling from a single-address
block (a /32) yields the network address, which is not of the form
`network_address + offset` with `0 ≤ offset ≤ num_addresses - 2`, because
`num_addresses - 2 = -1` there. -/
theorem claim_C10_counterexample :
    generate_random_ips [⟨16909060, 32⟩] 1 ⟨fun _ => 0, 0⟩ =
      .ok ([16909060], ⟨fun _ => 0, 1⟩) ∧
    ¬ offsetInClaimedRange ⟨16909060, 32⟩ 16909060 := by
  constructor
  · rfl
  · rintro ⟨off, h0, h1, h2⟩
    have hnum : ((Net.mk 16909060 32).numAddresses : ℤ) = 1 := by
      norm_num [Net.numAddresses]
    rw [hnum] at h1
    omega

/-- C10 (corrected): every address drawn by CIDR-mode sampling is
`network_address + offset` for a natural offset at most
`num_addresses - 2` in truncated subtraction (single-address blocks use
offset 0), hence never exceeds the block's last address, so the output
never contains an address outside the pool. -/
theorem claim_C10_pool_membership (nets : List Net) (count : Int) (s : RandState)
    (ips : List Nat) (s' : RandState)
    (h : generate_random_ips nets count s = .ok (ips, s')) :
    ∀ a ∈ ips, ∃ net ∈ nets,
      (∃ off : Nat, a = net.base + off ∧ off ≤ net.numAddresses - 2) ∧
      net.base ≤ a ∧ a ≤ net.base + net.numAddresses - 1 := by
  obtain ⟨hne, hips, hmem⟩ := generate_random_ips_ok h
  intro a ha
  rw [hips] at ha
  obtain ⟨net, hnet, hgt, hle⟩ := genOffsets_mem _ _ a ha
  have hpos := Net.numAddresses_pos net
  by_cases h2 : 2 < net.numAddresses
  · obtain ⟨hlo, hhi⟩ := hgt h2
    exact ⟨net, hmem net hnet, ⟨a - net.base, by omega, by omega⟩, by omega, by omega⟩
  · have hbase := hle (by omega)
    exact ⟨net, hmem net hnet, ⟨0, by omega, by omega⟩, by omega, by omega⟩

/-- C4, the claim as frozen, is false: the sampler does not fail on
`count ≤ 0` — CIDR-mode sampling with `count = 0` over a non-empty pool
returns the empty sequence, not an `InvalidInput` error. -/
theorem claim_C4_counterexample :
    generate_random_ips [⟨0, 24⟩] 0 ⟨fun _ => 0, 0⟩ = .ok ([], ⟨fun _ => 0, 0⟩) := rfl

/-- C4 (corrected): CIDR-mode sampling fails (with `IndexError`) exactly
when the pool is empty, whatever the count; with a non-empty pool and
`count ≤ 0` it returns the empty sequence.  Flat-list mode never fails on
an empty pool (it returns the empty sequence); on a non-empty pool it
fails (with `ValueError`) for negative counts and returns the empty
sequence for `count = 0`. -/
theorem claim_C4_error_conditions :
    (∀ (count : Int) (s : RandState),
      generate_random_ips [] count s = .error .indexError) ∧
    (∀ (nets : List Net) (count : Int) (s : RandState), nets ≠ [] → count ≤ 0 →
      generate_random_ips nets count s = .ok ([], s)) ∧
    (∀ (count : Int) (s : RandState),
      generate_random_ips_from_list [] count s = .ok ([], s)) ∧
    (∀ (l : List String) (count : Int) (s : RandState), l ≠ [] → count < 0 →
      generate_random_ips_from_list l count s = .error .valueError) ∧
    (∀ (l : List String) (s : RandState), l ≠ [] →
      generate_random_ips_from_list l 0 s = .ok ([], s)) := by
  refine ⟨?_, ?_, ?_, ?_, ?_⟩
  · intro count s
    simp [generate_random_ips, choicesWeighted]
  · intro nets count s hne hle
    have htot : totalWeight nets ≠ 0 := (totalWeight_pos hne).ne'
    have hempty : nets.isEmpty = false := by simp [List.isEmpty_iff, hne]
    have hk : count.toNat = 0 := Int.toNat_of_nonpos hle
    rw [generate_random_ips, choicesWeighted, hempty]
    simp [htot, hk, choicesAux, genOffsets]
  · intro count s
    simp [generate_random_ips_from_list]
  · intro l count s hne hneg
    have hlen : l.length ≠ 0 := by simp [hne]
    have hnotle : ¬ ((l.length : Int) ≤ count) := by
      have : (0 : Int) < (l.length : Int) := by exact_mod_cast Nat.pos_of_ne_zero hlen
      omega
    rw [generate_random_ips_from_list]
    simp only [hlen, if_false, hnotle, pySample]
    have : ¬ (0 ≤ count ∧ count ≤ (l.length : Int)) := by omega
    simp [this]
  · intro l s hne
    have hlen : l.length ≠ 0 := by simp [hne]
    have hnotle : ¬ ((l.length : Int) ≤ (0 : Int)) := by
      have : (0 : Int) < (l.length : Int) := by exact_mod_cast Nat.pos_of_ne_zero hlen
      omega
    rw [generate_random_ips_from_list]
    simp only [hlen, if_false, hnotle, pySample]
    have hcond : (0 : Int) ≤ 0 ∧ (0 : Int) ≤ (l.length : Int) := by omega
    simp [hcond, sampleAux, parseAll]

theorem parsedMap_nodup {l : List String} (hsome : ∀ ip ∈ l, (parseIPv4 ip).isSome)
    (hnod : (l.map parseIPv4).Nodup) :
    (l.map fun ip => (parseIPv4 ip).getD 0).Nodup := by
  have hmm : (l.map fun ip => (parseIPv4 ip).getD 0)
      = (l.map parseIPv4).map (fun o => o.getD 0) := by
    simp only [List.map_map]
    rfl
  rw [hmm]
  refine List.Nodup.map_on ?_ hnod
  intro o₁ h₁ o₂ h₂ heq
  obtain ⟨ip₁, hip₁, rfl⟩ := List.mem_map.mp h₁
  obtain ⟨ip₂, hip₂, rfl⟩ := List.mem_map.mp h₂
  obtain ⟨v₁, hv₁⟩ := Option.isSome_iff_exists.mp (hsome ip₁ hip₁)
  obtain ⟨v₂, hv₂⟩ := Option.isSome_iff_exists.mp (hsome ip₂ hip₂)
  rw [hv₁, hv₂] at heq ⊢
  simp at heq
  rw [heq]

/-- C3, the claim as frozen, is false: with a flat list holding the same
literal twice and `count = M = 2` (so `N ≤ M`), the sampler returns the
whole pool and the output contains duplicates. -/
theorem claim_C3_counterexample :
    generate_random_ips_from_list ["1.2.3.4", "1.2.3.4"] 2 ⟨fun _ => 0, 0⟩ =
      .ok ([16909060, 16909060], ⟨fun _ => 0, 0⟩) ∧
    ¬ ([16909060, 16909060] : List Nat).Nodup := by
  exact ⟨rfl, by decide⟩

/-- C3 (corrected): CIDR-mode sampling over a non-empty pool returns
exactly `N` addresses for every count `N ≥ 0` (duplicates allowed).
Flat-list sampling over a list of `M` valid IPv4 literals returns exactly
`min(N, M)` addresses; it has no duplicates when `N ≤ M` provided the
list's parsed addresses are pairwise distinct; and when `N ≥ M` it
returns the entire pool, converted to typed addresses, in its original
order. -/
theorem claim_C3_sample_counts :
    (∀ (nets : List Net) (s : RandState) (N : Nat), nets ≠ [] →
      ∃ ips s', generate_random_ips nets (N : Int) s = .ok (ips, s') ∧ ips.length = N) ∧
    (∀ (l : List String) (s : RandState) (N : Nat),
      (∀ ip ∈ l, (parseIPv4 ip).isSome) →
      ∃ ips s', generate_random_ips_from_list l (N : Int) s = .ok (ips, s') ∧
        ips.length = min N l.length ∧
        ((l.map parseIPv4).Nodup → N ≤ l.length → ips.Nodup) ∧
        (l.length ≤ N → ips = l.map fun ip => (parseIPv4 ip).getD 0)) := by
  constructor
  · intro nets s N hne
    have htot : totalWeight nets ≠ 0 := (totalWeight_pos hne).ne'
    have hempty : nets.isEmpty = false := by simp [List.isEmpty_iff, hne]
    have hgen : generate_random_ips nets (N : Int) s =
        .ok (genOffsets (choicesAux nets (totalWeight nets) N s).1
          (choicesAux nets (totalWeight nets) N s).2) := by
      rw [generate_random_ips, choicesWeighted, hempty]
      simp [htot]
    refine ⟨_, _, hgen, ?_⟩
    rw [genOffsets_length, choicesAux_length]
  · intro l s N hsome
    by_cases hnil : l.length = 0
    · have hl : l = [] := List.length_eq_zero.mp hnil
      subst hl
      exact ⟨[], s, by simp [generate_random_ips_from_list], by simp, by simp, by simp⟩
    · by_cases hle : l.length ≤ N
      · have hcast : (l.length : Int) ≤ (N : Int) := by exact_mod_cast hle
        have hgen : generate_random_ips_from_list l (N : Int) s =
            .ok (l.map fun ip => (parseIPv4 ip).getD 0, s) := by
          rw [generate_random_ips_from_list, if_neg hnil, if_pos hcast, parseAll_ok hsome]
        refine ⟨_, _, hgen, ?_, ?_, ?_⟩
        · simp [Nat.min_eq_right hle]
        · intro hnod _
          exact parsedMap_nodup hsome hnod
        · intro _
          rfl
      · have hNlt : N < l.length := by omega
        have hcast : ¬ ((l.length : Int) ≤ (N : Int)) := by
          intro hc
          exact absurd (by exact_mod_cast hc) hle
        have hcond : (0 : Int) ≤ (N : Int) ∧ (N : Int) ≤ (l.length : Int) :=
          ⟨by positivity, by exact_mod_cast le_of_lt hNlt⟩
        cases hsamp : sampleAux N l s with
        | mk chosen s1 =>
            have hchlen : chosen.length = N := by
              have := sampleAux_length N l s (le_of_lt hNlt)
              rw [hsamp] at this
              exact this
            have hsub : ∀ x ∈ chosen, x ∈ l := by
              have hs0 := sampleAux_subset N l s (le_of_lt hNlt)
              rw [hsamp] at hs0
              exact hs0
            have hsome' : ∀ ip ∈ chosen, (parseIPv4 ip).isSome :=
              fun ip hip => hsome ip (hsub ip hip)
            have hgen : generate_random_ips_from_list l (N : Int) s =
                .ok (chosen.map fun ip => (parseIPv4 ip).getD 0, s1) := by
              rw [generate_random_ips_from_list, if_neg hnil, if_neg hcast, pySample,
                if_pos hcond, Int.toNat_natCast, hsamp]
              simp only []
              rw [parseAll_ok hsome']
            refine ⟨_, _, hgen, ?_, ?_, ?_⟩
            · simp [hchlen, Nat.min_eq_left (le_of_lt hNlt)]
            · intro hnod _
              obtain ⟨rest, hperm⟩ := sampleAux_perm N l s (le_of_lt hNlt)
              rw [hsamp] at hperm
              have hmapperm : ((chosen ++ rest).map parseIPv4).Perm (l.map parseIPv4) :=
                hperm.map parseIPv4
              have happnod : ((chosen ++ rest).map parseIPv4).Nodup :=
                hmapperm.nodup_iff.mpr hnod
              rw [List.map_append] at happnod
              exact parsedMap_nodup hsome' happnod.of_append_left
            · intro hc
              omega

/-- C8: the output of both samplers is a deterministic function of the
pool, the count, and the random-generator state — two runs whose random
states generate the same stream of raw draws produce identical output
sequences. -/
theorem claim_C8_deterministic (nets : List Net) (l : List String) (count : Int)
    (s₁ s₂ : RandState) (h : streamEquiv s₁ s₂) :
    (generate_random_ips nets count s₁).map Prod.fst =
      (generate_random_ips nets count s₂).map Prod.fst ∧
    (generate_random_ips_from_list l count s₁).map Prod.fst =
      (generate_random_ips_from_list l count s₂).map Prod.fst := by
  constructor
  · by_cases hempty : nets.isEmpty
    · simp [generate_random_ips, choicesWeighted, hempty]
    · by_cases htot : totalWeight nets = 0
      · simp [generate_random_ips, choicesWeighted, hempty, htot]
      · have hemp : nets.isEmpty = false := by simpa using hempty
        cases hc₁ : choicesAux nets (totalWeight nets) count.toNat s₁ with
        | mk ch₁ sc₁ =>
            cases hc₂ : choicesAux nets (totalWeight nets) count.toNat s₂ with
            | mk ch₂ sc₂ =>
                have hch := (choicesAux_congr nets (totalWeight nets) count.toNat s₁ s₂ h).1
                have hst := (choicesAux_congr nets (totalWeight nets) count.toNat s₁ s₂ h).2
                rw [hc₁, hc₂] at hch hst
                simp only at hch hst
                subst hch
                have hoff := (genOffsets_congr ch₁ sc₁ sc₂ hst).1
                simp only [generate_random_ips, choicesWeighted, hemp, Bool.false_eq_true,
                  if_false, if_neg htot, hc₁, hc₂, Except.map]
                rw [hoff]
  · by_cases hnil : l.length = 0
    · simp [generate_random_ips_from_list, hnil, Except.map]
    · by_cases hcast : (l.length : Int) ≤ count
      · simp only [generate_random_ips_from_list, if_neg hnil, if_pos hcast]
        cases parseAll l <;> simp [Except.map]
      · by_cases hcond : 0 ≤ count ∧ count ≤ (l.length : Int)
        · have hch := (sampleAux_congr count.toNat l s₁ s₂ h).1
          cases hs₁ : sampleAux count.toNat l s₁ with
          | mk chosen₁ t₁ =>
              cases hs₂ : sampleAux count.toNat l s₂ with
              | mk chosen₂ t₂ =>
                  rw [hs₁, hs₂] at hch
                  simp only at hch
                  subst hch
                  simp only [generate_random_ips_from_list, if_neg hnil, if_neg hcast,
                    pySample, if_pos hcond, hs₁, hs₂]
                  cases parseAll chosen₁ <;> simp [Except.map]
        · simp [generate_random_ips_from_list, hnil, hcast, pySample, hcond, Except.map]

/-! ### Witnesses: the claim theorems applied at concrete inputs -/

theorem claim_C1_witness :
    (0 : ℚ) < 1 ∧
    (((ProbeEnv.mk .failure 5).result = .timeout →
      test_ip 16909060 1 2 ⟨.failure, 5⟩ = none) ∧
    ((ProbeEnv.mk .failure 5).result ≠ .timeout →
      test_ip 16909060 1 2 ⟨.failure, 5⟩ =
        some (ipToString 16909060, (ProbeEnv.mk .failure 5).endTime - 2))) :=
  ⟨by norm_num, claim_C1_probe_classification 16909060 1 2 ⟨.failure, 5⟩ (by norm_num)⟩

theorem claim_C2_witness :
    generate_random_ips [⟨0, 24⟩] 1 ⟨fun _ => 0, 0⟩ = .ok ([1], ⟨fun _ => 0, 2⟩) ∧
    ∀ a ∈ [1], ∃ net ∈ [Net.mk 0 24],
      (2 < net.numAddresses → net.base < a ∧ a < net.base + net.numAddresses - 1) ∧
      (net.numAddresses ≤ 2 → a = net.base) :=
  ⟨rfl, claim_C2_host_range [⟨0, 24⟩] 1 ⟨fun _ => 0, 0⟩ [1] ⟨fun _ => 0, 2⟩ rfl⟩

theorem claim_C3_witness :
    ([Net.mk 0 24] ≠ ([] : List Net)) ∧
    (∀ ip ∈ ["1.2.3.4", "5.6.7.8"], (parseIPv4 ip).isSome) ∧
    (∃ ips s', generate_random_ips [⟨0, 24⟩] ((3 : Nat) : Int) ⟨fun _ => 0, 0⟩ =
      .ok (ips, s') ∧ ips.length = 3) ∧
    (∃ ips s', generate_random_ips_from_list ["1.2.3.4", "5.6.7.8"] ((5 : Nat) : Int)
        ⟨fun _ => 0, 0⟩ = .ok (ips, s') ∧
      ips.length = min 5 (["1.2.3.4", "5.6.7.8"] : List String).length ∧
      (((["1.2.3.4", "5.6.7.8"] : List String).map parseIPv4).Nodup →
        5 ≤ (["1.2.3.4", "5.6.7.8"] : List String).length → ips.Nodup) ∧
      ((["1.2.3.4", "5.6.7.8"] : List String).length ≤ 5 →
        ips = (["1.2.3.4", "5.6.7.8"] : List String).map fun ip => (parseIPv4 ip).getD 0)) :=
  ⟨by simp, by decide,
    claim_C3_sample_counts.1 [⟨0, 24⟩] ⟨fun _ => 0, 0⟩ 3 (by simp),
    claim_C3_sample_counts.2 ["1.2.3.4", "5.6.7.8"] ⟨fun _ => 0, 0⟩ 5 (by decide)⟩

theorem claim_C4_witness :
    ([Net.mk 0 24] ≠ ([] : List Net)) ∧ ((-3 : Int) ≤ 0) ∧
    generate_random_ips [⟨0, 24⟩] (-3) ⟨fun _ => 0, 0⟩ = .ok ([], ⟨fun _ => 0, 0⟩) ∧
    (["1.2.3.4"] ≠ ([] : List String)) ∧ ((-3 : Int) < 0) ∧
    generate_random_ips_from_list ["1.2.3.4"] (-3) ⟨fun _ => 0, 0⟩ = .error .valueError :=
  ⟨by simp, by norm_num,
    claim_C4_error_conditions.2.1 [⟨0, 24⟩] (-3) ⟨fun _ => 0, 0⟩ (by simp) (by norm_num),
    by simp, by norm_num,
    claim_C4_error_conditions.2.2.2.1 ["1.2.3.4"] (-3) ⟨fun _ => 0, 0⟩ (by simp) (by norm_num)⟩

theorem claim_C5_witness :
    ([0] : List Nat).Perm (List.range ([16909060] : List Nat).length) ∧
    ((check_ips [16909060] 2 1 (fun _ => 0) (fun _ => ⟨.completed, 5⟩) [0]).2 =
        ([16909060] : List Nat).length ∧
      ∀ k, k ≤ ([0] : List Nat).length →
        (check_ips [16909060] 2 1 (fun _ => 0) (fun _ => ⟨.completed, 5⟩) ([0].take k)).2 = k) :=
  ⟨by decide,
    claim_C5_progress_counter [16909060] 2 1 (fun _ => 0) (fun _ => ⟨.completed, 5⟩) [0]
      (by decide)⟩

theorem claim_C6_witness :
    ([0] : List Nat).Perm (List.range ([16909060] : List Nat).length) ∧
    (check_ips [16909060] 2 1 (fun _ => 0) (fun _ => ⟨.completed, 5⟩) [0]).1.length ≤
      ([16909060] : List Nat).length :=
  ⟨by decide,
    (claim_C6_result_set [16909060] 2 1 (fun _ => 0) (fun _ => ⟨.completed, 5⟩) [0]).2
      (by decide)⟩

theorem claim_C7_witness :
    ([(("5.6.7.8" : String), (5 : ℚ))] ≠ ([] : List (String × ℚ))) ∧
    writeReport "fastly" ⟨2026, 10, 12, 1, 2, 3⟩ [("5.6.7.8", 5)] =
      some ("responsive_ips_" ++ "fastly" ++ "_" ++ nowString ⟨2026, 10, 12, 1, 2, 3⟩ ++ ".csv",
        ["ip", "response_time_s"] ::
          [(("5.6.7.8" : String), (5 : ℚ))].map fun p => [p.1, formatTwoDec p.2]) :=
  ⟨by simp,
    (claim_C7_csv_report "fastly" ⟨2026, 10, 12, 1, 2, 3⟩ [("5.6.7.8", 5)]).2.1 (by simp)⟩

theorem claim_C8_witness :
    streamEquiv ⟨fun _ => 0, 0⟩ ⟨fun _ => 0, 0⟩ ∧
    ((generate_random_ips [⟨0, 24⟩] 2 ⟨fun _ => 0, 0⟩).map Prod.fst =
      (generate_random_ips [⟨0, 24⟩] 2 ⟨fun _ => 0, 0⟩).map Prod.fst ∧
    (generate_random_ips_from_list ["1.2.3.4"] 2 ⟨fun _ => 0, 0⟩).map Prod.fst =
      (generate_random_ips_from_list ["1.2.3.4"] 2 ⟨fun _ => 0, 0⟩).map Prod.fst) :=
  ⟨fun _ => rfl,
    claim_C8_deterministic [⟨0, 24⟩] ["1.2.3.4"] 2 ⟨fun _ => 0, 0⟩ ⟨fun _ => 0, 0⟩
      (fun _ => rfl)⟩

theorem claim_C9_witness :
    (400 ≤ 404) ∧ (404 < 600) ∧
    fetch_bunny_ips (.resp 404 (some (.jArr []))) = .jArr [] :=
  ⟨by norm_num, by norm_num,
    claim_C9_fetch_total.2.1 404 (some (.jArr [])) (by norm_num) (by norm_num)⟩

theorem claim_C10_witness :
    generate_random_ips [⟨0, 30⟩] 1 ⟨fun _ => 1, 0⟩ = .ok ([2], ⟨fun _ => 1, 2⟩) ∧
    ∀ a ∈ [2], ∃ net ∈ [Net.mk 0 30],
      (∃ off : Nat, a = net.base + off ∧ off ≤ net.numAddresses - 2) ∧
      net.base ≤ a ∧ a ≤ net.base + net.numAddresses - 1 :=
  ⟨rfl, claim_C10_pool_membership [⟨0, 30⟩] 1 ⟨fun _ => 1, 0⟩ [2] ⟨fun _ => 1, 2⟩ rfl⟩

end IpScanner
